import Mathlib

/-!
Shallow embedding of the langgraph_agent utility core:
* `src/prompts/registry.py` — `PromptTemplate` (format / validate_variables)
  and `PromptRegistry` (register / get / list_prompts / load_from_yaml /
  load_from_directory);
* `src/schemas/validators.py` — `validate_schema_alignment` with
  `_normalize_type`, `_types_compatible`, `_unwrap_optional`;
* `src/config/tables.py` — `DataLayer`, `TableName`, `TableNameManager.get`.

Machine-level conventions: Python strings are Lean `String` / `List Char`;
Python dicts are association lists with Python-dict insertion semantics
(update in place keeps position, fresh keys append); Python sets of strings
are `Finset String`; raised exceptions are `Except` errors.
-/

namespace LG

/-- Decidable equality for `Except`, so that concrete runs of the embedded
operations can be settled by `decide`. -/
instance {ε α : Type} [DecidableEq ε] [DecidableEq α] :
    DecidableEq (Except ε α) := fun x y =>
  match x, y with
  | .ok a, .ok b => decidable_of_iff (a = b) ⟨congrArg _, Except.ok.inj⟩
  | .error a, .error b => decidable_of_iff (a = b) ⟨congrArg _, Except.error.inj⟩
  | .ok _, .error _ => isFalse (fun h => Except.noConfusion h)
  | .error _, .ok _ => isFalse (fun h => Except.noConfusion h)

/-! ## Prompt templates (src/prompts/registry.py, class PromptTemplate) -/

/-- A word character in the sense of the regex `\w` (ASCII range, which is
all the repository's templates use): letters, digits, underscore. -/
def isWordChar (c : Char) : Bool :=
  c.isAlphanum || c = '_'

/-- Fields of `PromptTemplate`, as validated by the pydantic model:
`name` and `template` are non-empty by construction, `variables` is the
coerced list (see `construct`). -/
structure PromptTemplate where
  name : String
  version : String
  description : String
  template : String
  vars : List String
deriving DecidableEq, Repr

/-- A token of a format string: a literal piece, or a `{name}` keyword field. -/
inductive FTok where
  | lit (s : String)
  | field (name : String)
deriving DecidableEq, Repr

/-- Result of scanning a format string: a token list; a failure that
CPython raises for every binding map (stray brace, unterminated or empty
field, positional field, brace inside a field name — always ValueError or
IndexError under the source's keyword-only call `template.format(**kwargs)`);
or a construct outside the modelled grammar — a conversion (`!`), format
spec (`:`), attribute (`.`) or index (`[`, `]`) field — about which this
embedding asserts nothing, since CPython may succeed or fail there
depending on the bound values. -/
inductive ScanOut where
  | toks (ts : List FTok)
  | err
  | beyond
deriving DecidableEq, Repr

/-- Prepends a token when the scan produced tokens; failures and
out-of-model outcomes pass through. -/
def ScanOut.consTok (t : FTok) : ScanOut → ScanOut
  | ScanOut.toks ts => ScanOut.toks (t :: ts)
  | r => r

/-- Prepends a token list when the scan produced tokens. -/
def ScanOut.consToks (l : List FTok) : ScanOut → ScanOut
  | ScanOut.toks ts => ScanOut.toks (l ++ ts)
  | r => r

/-- A character that can be part of a plain field name: CPython accepts
any character into the name until it meets a brace or one of the
delimiters that start a conversion, format spec, attribute or index. -/
def nameChar (c : Char) : Bool :=
  !(c = '{' || c = '}' || c = '!' || c = ':' || c = '.' || c = '[' || c = ']')

/-- Scanner for CPython `str.format` templates as invoked by
`PromptTemplate.format` (`template.format(**kwargs)`: keyword arguments
only, never positional ones).  `{{` and `}}` are escapes; `{name}` is a
keyword field for any non-empty, non-all-digit run of plain name
characters; a stray `{` or `}`, an unterminated field, an empty field
`{}` (auto-numbering with no positional argument), an all-digit
(positional) field, and a `{` inside a field name raise in CPython for
every binding map and scan to `ScanOut.err`; a `!`, `:`, `.`, `[` or `]`
inside a field starts a conversion, format spec, attribute or index —
constructs this embedding deliberately leaves unspecified
(`ScanOut.beyond`). -/
def scanFormatAux : Option (List Char) → List Char → ScanOut
  | none, [] => ScanOut.toks []
  | none, '{' :: '{' :: rest => (scanFormatAux none rest).consTok (FTok.lit "\x7b")
  | none, '}' :: '}' :: rest => (scanFormatAux none rest).consTok (FTok.lit "\x7d")
  | none, '{' :: rest => scanFormatAux (some []) rest
  | none, '}' :: _ => ScanOut.err
  | none, c :: rest => (scanFormatAux none rest).consTok (FTok.lit (String.singleton c))
  | some _, [] => ScanOut.err
  | some acc, '}' :: rest =>
    if acc ≠ [] ∧ ¬ acc.all (·.isDigit) then
      (scanFormatAux none rest).consTok (FTok.field acc.asString)
    else ScanOut.err
  | some acc, c :: rest =>
    if c = '{' then ScanOut.err
    else if nameChar c then scanFormatAux (some (acc ++ [c])) rest
    else ScanOut.beyond

/-- Entry point of the scanner: start outside of any field. -/
def scanFormat (l : List Char) : ScanOut :=
  scanFormatAux none l

/-- Rendering of scanned tokens against keyword bindings: each field is
replaced by its bound value; an unbound field is CPython's KeyError,
modelled as `none`. -/
def renderToks (b : String → Option String) : List FTok → Option String
  | [] => some ""
  | FTok.lit s :: ts => (renderToks b ts).map (s ++ ·)
  | FTok.field n :: ts =>
    match b n with
    | some v => (renderToks b ts).map (v ++ ·)
    | none => none

/-- Outcome of `str.format` in the embedding: success with the rendered
string, a raised exception (ValueError/IndexError from the scan or
KeyError from an unbound field), or a template using constructs outside
the modelled grammar, on which the embedding takes no stance. -/
inductive FmtOut where
  | ok (s : String)
  | error
  | beyond
deriving DecidableEq, Repr

/-- Models `template.format(**kwargs)`: scan, then substitute.
Extensionally equal to CPython's single pass wherever the scan stays
inside the modelled grammar (both fail exactly when the scan fails or a
field is unbound, and succeed with the same concatenation otherwise);
templates that use conversions, format specs, attribute or index fields
are reported as `FmtOut.beyond` and left unspecified. -/
def pyFormat (b : String → Option String) (l : List Char) : FmtOut :=
  match scanFormat l with
  | ScanOut.toks ts =>
    match renderToks b ts with
    | some s => FmtOut.ok s
    | none => FmtOut.error
  | ScanOut.err => FmtOut.error
  | ScanOut.beyond => FmtOut.beyond

/-- A character sequence with no brace at all: scanned as pure literal. -/
def braceFree (l : List Char) : Bool :=
  l.all fun c => c ≠ '{' && c ≠ '}'

/-- The field names a token list references, in order. -/
def fieldNames (ts : List FTok) : List String :=
  ts.filterMap fun t =>
    match t with
    | FTok.field n => some n
    | _ => none

/-- Builds a template out of literal/placeholder segments followed by a
final literal: `lit₁ {v₁} lit₂ {v₂} … last`.  Used to state what the
substitution performed by `str.format` looks like on well-formed
templates. -/
def mkTpl : List (List Char × String) → List Char → List Char
  | [], last => last
  | (lit, v) :: segs, last => lit ++ '{' :: (v.data ++ ('}' :: mkTpl segs last))

/-- Tokens of a segment template: the literal pieces, each placeholder as
a field, then the trailing literal. -/
def mkToks : List (List Char × String) → List Char → List FTok
  | [], last => last.map fun c => FTok.lit (String.singleton c)
  | (lit, v) :: segs, last =>
    (lit.map fun c => FTok.lit (String.singleton c)) ++ FTok.field v :: mkToks segs last

/-- A keyword-field identifier: non-empty, word characters only, not all
digits.  The repository's templates use only such placeholders; CPython
accepts a wider class of names, which the scanner above reflects. -/
def validIdent (v : String) : Bool :=
  v.data ≠ [] && v.data.all isWordChar && !(v.data.all (·.isDigit))

/-- The spec-side substitution on segments: each literal is kept verbatim
and each placeholder is replaced by its bound value. -/
def renderSegs (b : String → Option String) : List (List Char × String) → List Char → String
  | [], last => last.asString
  | (lit, v) :: segs, last => lit.asString ++ ((b v).getD "") ++ renderSegs b segs last

/-- Keyword bindings (`**kwargs`): an association list with unique keys. -/
abbrev Bindings := List (String × String)

/-- The keys of a binding map. -/
def bkeys (b : Bindings) : List String := b.map Prod.fst

/-- Computes `set(self.variables) - set(kwargs.keys())` from `PromptTemplate.format`. -/
def missingVars (t : PromptTemplate) (b : Bindings) : Finset String :=
  t.vars.toFinset \ (bkeys b).toFinset

/-- Result of `PromptTemplate.format`: the returned string; the explicit
`KeyError("Missing required variables: …")` carrying the missing set; a
failure raised by `str.format` itself; or — for templates using
conversion / format-spec / attribute / index fields — an outcome the
embedding leaves unspecified. -/
inductive FormatResult where
  | ok (s : String)
  | missingVariables (missing : Finset String)
  | formatFailure
  | unmodeled
deriving DecidableEq

/-- Embeds `PromptTemplate.format`: raise on a non-empty missing set, otherwise
delegate to `str.format`. -/
def PromptTemplate.format (t : PromptTemplate) (b : Bindings) :
    FormatResult :=
  if missingVars t b = ∅ then
    match pyFormat (fun k => List.lookup k b) t.template.data with
    | FmtOut.ok s => FormatResult.ok s
    | FmtOut.error => FormatResult.formatFailure
    | FmtOut.beyond => FormatResult.unmodeled
  else
    FormatResult.missingVariables (missingVars t b)

/-- Models `re.findall(r"\x7b(\w+)\x7d", template)`: the left-to-right,
non-overlapping regex scan used by `validate_variables`. -/
def findPlaceholdersAux : Option (List Char) → List Char → List String
  | none, [] => []
  | none, '{' :: rest => findPlaceholdersAux (some []) rest
  | none, _ :: rest => findPlaceholdersAux none rest
  | some _, [] => []
  | some acc, c :: rest =>
    if c = '}' then
      if acc ≠ [] then acc.asString :: findPlaceholdersAux none rest
      else findPlaceholdersAux none rest
    else if isWordChar c then findPlaceholdersAux (some (acc ++ [c])) rest
    else if c = '{' then findPlaceholdersAux (some []) rest
    else findPlaceholdersAux none rest

/-- Entry point of the regex scan: start outside of any candidate match. -/
def findPlaceholders (l : List Char) : List String :=
  findPlaceholdersAux none l

/-- The set of `{word}` placeholders of a template body. -/
def placeholderSet (t : PromptTemplate) : Finset String :=
  (findPlaceholders t.template.data).toFinset

/-- A message returned by `validate_variables`, carrying the set its
f-string renders. -/
inductive VMsg where
  | undeclared (s : Finset String)
  | unused (s : Finset String)
deriving DecidableEq

/-- Embeds `PromptTemplate.validate_variables`: compare regex placeholders with
declared variables; one message per non-empty difference. -/
def PromptTemplate.validate_variables (t : PromptTemplate) : List VMsg :=
  let placeholders := placeholderSet t
  let declared := t.vars.toFinset
  (if placeholders \ declared ≠ ∅ then [VMsg.undeclared (placeholders \ declared)] else [])
    ++ (if declared \ placeholders ≠ ∅ then [VMsg.unused (declared \ placeholders)] else [])

/-! ## Prompt construction (pydantic validation of `PromptTemplate`)

`PromptTemplate(**data)`: `name` and `template` are required with
`min_length=1`; `version` defaults to `"1.0.0"`, `description` to `""`;
`variables` is first coerced by the `ensure_list` validator
(`None → []`, a string `s → [s]`, anything else → `list(v)`, which
succeeds exactly on iterables) and then validated as `list[str]`. -/

/-- The value supplied for the `variables` key, covering the shapes the
`ensure_list` validator distinguishes: absent handled separately, `None`,
a single string, a list of strings, a non-sequence iterable of strings
(e.g. a set, with its iteration order), a list with non-string elements,
and a non-iterable value. -/
inductive VarValue where
  | noneV
  | strV (s : String)
  | listStrV (l : List String)
  | setStrV (l : List String)
  | listIntV (l : List Int)
  | intV (n : Int)
deriving DecidableEq, Repr

/-- A deserialized YAML document for one prompt: each key may be absent. -/
structure PromptDoc where
  name : Option String
  version : Option String
  description : Option String
  template : Option String
  vars : Option VarValue
deriving DecidableEq, Repr

/-- Errors raised while loading a prompt: a YAML parse error, or a failure
while constructing the `PromptTemplate` (pydantic `ValidationError`, and the
`TypeError` that `list(v)` raises on a non-iterable, which pydantic v2 lets
propagate). -/
inductive LoadError where
  | parseError
  | validationError
deriving DecidableEq, Repr

/-- Models `ensure_list` followed by the `list[str]` field validation:
`None → []`, a string becomes a one-element list, any iterable of strings
is accepted via `list(v)`, a list with non-string elements fails the
`list[str]` check, and a non-iterable fails in `list(v)`. -/
def coerceVars : Option VarValue → Except LoadError (List String)
  | none => Except.ok []
  | some VarValue.noneV => Except.ok []
  | some (VarValue.strV s) => Except.ok [s]
  | some (VarValue.listStrV l) => Except.ok l
  | some (VarValue.setStrV l) => Except.ok l
  | some (VarValue.listIntV _) => Except.error LoadError.validationError
  | some (VarValue.intV _) => Except.error LoadError.validationError

/-- Embeds `PromptTemplate(**data)`: pydantic construction with required
non-empty `name` and `template`, defaulted `version`/`description`, and
the `variables` coercion. -/
def construct (d : PromptDoc) : Except LoadError PromptTemplate :=
  match d.name, d.template with
  | some n, some tpl =>
    if n.length < 1 ∨ tpl.length < 1 then Except.error LoadError.validationError
    else
      match coerceVars d.vars with
      | Except.error e => Except.error e
      | Except.ok vs =>
        Except.ok ⟨n, d.version.getD "1.0.0", d.description.getD "", tpl, vs⟩
  | _, _ => Except.error LoadError.validationError

/-! ## Prompt registry (src/prompts/registry.py, class PromptRegistry)

`self._prompts` is a Python dict; we embed it as an association list with
dict semantics: assigning to an existing key updates the value in place,
assigning a fresh key appends. -/

/-- The registry's `_prompts` dict. -/
abbrev Registry := List (String × PromptTemplate)

/-- Python dict assignment `d[k] = v`. -/
def dictInsert : Registry → String → PromptTemplate → Registry
  | [], k, v => [(k, v)]
  | (k', v') :: rest, k, v =>
    if k' = k then (k', v) :: rest else (k', v') :: dictInsert rest k v

/-- Embeds `PromptRegistry.register`: `self._prompts[prompt.name] = prompt`. -/
def register (reg : Registry) (p : PromptTemplate) : Registry :=
  dictInsert reg p.name p

/-- Embeds `PromptRegistry.get`: lookup by name; `none` models the KeyError. -/
def getPrompt (reg : Registry) (name : String) : Option PromptTemplate :=
  List.lookup name reg

/-- Embeds `PromptRegistry.list_prompts`: `list(self._prompts.keys())`. -/
def list_prompts (reg : Registry) : List String :=
  reg.map Prod.fst

/-- First-occurrence deduplication of a name sequence: the key order a
Python dict ends up with after assigning the names in order, given the
keys already `seen`. -/
def fdAux (seen : List String) : List String → List String
  | [] => []
  | a :: l => if a ∈ seen then fdAux seen l else a :: fdAux (seen ++ [a]) l

/-- The content of one file in a prompt directory, as seen after
`yaml.safe_load`: either a parse failure or a deserialized document. -/
inductive RawDoc where
  | malformed
  | parsed (d : PromptDoc)
deriving DecidableEq, Repr

/-- Parsing plus construction for one file. -/
def loadDoc : RawDoc → Except LoadError PromptTemplate
  | RawDoc.malformed => Except.error LoadError.parseError
  | RawDoc.parsed d => construct d

/-- Embeds `PromptRegistry.load_from_yaml`: parse, construct, register, return.
The registry is threaded explicitly; an exception leaves it unchanged
(the mutation happens only after a successful construction). -/
def load_from_yaml (reg : Registry) (r : RawDoc) :
    Except LoadError (Registry × PromptTemplate) :=
  match loadDoc r with
  | Except.error e => Except.error e
  | Except.ok t => Except.ok (register reg t, t)

/-- Embeds `PromptRegistry.load_from_directory`: load every file in turn,
accumulating the loaded templates; the first raised error aborts the loop.
The returned registry reflects the in-place mutations performed before the
failure. -/
def load_from_directory (reg : Registry) :
    List RawDoc → Registry × Except LoadError (List PromptTemplate)
  | [] => (reg, Except.ok [])
  | r :: rs =>
    match load_from_yaml reg r with
    | Except.error e => (reg, Except.error e)
    | Except.ok (reg', t) =>
      match load_from_directory reg' rs with
      | (reg'', Except.ok ts) => (reg'', Except.ok (t :: ts))
      | (reg'', Except.error e) => (reg'', Except.error e)

/-! ## Schema alignment (src/schemas/validators.py) -/

/-- A Python type annotation, as inspected through `get_origin`/`get_args`.
Unions (including `Optional[T] = Union[T, None]`) are the only generics the
repository's schemas use in annotations; other annotations (plain classes,
`Literal[...]`, `dict`, `datetime`, …) behave as opaque heads here and are
represented by `named`.  Python's `typing` flattens nested unions, so a
union member is never itself a union in any annotation this models. -/
inductive PyTy where
  | str
  | int
  | float
  | bool
  | noneT
  | named (s : String)
  | union (a b : PyTy)
deriving DecidableEq, Repr

namespace PyTy

/-- Computes `get_args` with `NoneType` filtered out, as both `_normalize_type` and
`_unwrap_optional` compute it. -/
def nonNoneArgs : PyTy → List PyTy
  | union a b => [a, b].filter (· ≠ noneT)
  | _ => []

/-- Whether `get_origin` is truthy for the annotation. -/
def hasOrigin : PyTy → Bool
  | union _ _ => true
  | _ => false

/-- Whether the annotation is a union. -/
def isUnion : PyTy → Bool
  | union _ _ => true
  | _ => false

/-- No union directly inside a union.  Python's `typing` flattens nested
unions, so every annotation a Python schema can actually declare is flat;
non-flat values of `PyTy` are artifacts of the embedding. -/
def flat : PyTy → Bool
  | union a b => !a.isUnion && !b.isUnion
  | _ => true

end PyTy

/-- Embeds `_normalize_type`: for a generic annotation whose argument list has
exactly one non-`None` member, return that member; otherwise return the
annotation unchanged.  (The `origin is type(None)` branch of the source is
unreachable: `get_origin` never returns `NoneType`.) -/
def _normalize_type (t : PyTy) : PyTy :=
  if t.hasOrigin then
    match t.nonNoneArgs with
    | [inner] => inner
    | _ => t
  else t

/-- Embeds `_unwrap_optional`: identical unwrapping logic. -/
def _unwrap_optional (t : PyTy) : PyTy :=
  if t.hasOrigin then
    match t.nonNoneArgs with
    | [inner] => inner
    | _ => t
  else t

/-- Embeds `_types_compatible`: exact equality, equality after unwrapping
optionals, or both unwrapped types in `{int, float}`. -/
def _types_compatible (t1 t2 : PyTy) : Bool :=
  if t1 = t2 then true
  else
    let t1i := _unwrap_optional t1
    let t2i := _unwrap_optional t2
    if t1i = t2i then true
    else if (t1i = PyTy.int ∨ t1i = PyTy.float) ∧ (t2i = PyTy.int ∨ t2i = PyTy.float) then true
    else false

/-- A flat schema: `model_fields` as an association list from field name to
declared annotation (a Python dict, so keys are unique). -/
abbrev Schema := List (String × PyTy)

/-- The field-name set of a schema. -/
def fieldSet (s : Schema) : Finset String :=
  (s.map Prod.fst).toFinset

/-- An error emitted by `validate_schema_alignment`, carrying the data its
f-string renders. -/
inductive AlignError where
  | missingInDb (fields : Finset String)
  | extraInDb (fields : Finset String)
  | typeMismatch (field : String) (llmTy dbTy : PyTy)
deriving DecidableEq

/-- Embeds `validate_schema_alignment(llm_schema, db_schema, strict)`: missing
fields, strict-mode extra fields (minus the `id`/`created_at`/`updated_at`
allow-list), then a type check over shared fields. -/
def validate_schema_alignment (llm db : Schema) (strict : Bool) : List AlignError :=
  let llmF := fieldSet llm
  let dbF := fieldSet db
  let missing_in_db := llmF \ dbF
  let e1 := if missing_in_db ≠ ∅ then [AlignError.missingInDb missing_in_db] else []
  let db_only := (dbF \ llmF) \ ({"id", "created_at", "updated_at"} : Finset String)
  let e2 := if strict ∧ db_only ≠ ∅ then [AlignError.extraInDb db_only] else []
  let e3 := llm.filterMap fun p =>
    match List.lookup p.1 db with
    | none => none
    | some dbTy =>
      if _types_compatible (_normalize_type p.2) (_normalize_type dbTy) then none
      else some (AlignError.typeMismatch p.1 p.2 dbTy)
  e1 ++ e2 ++ e3

/-! ## Table naming (src/config/tables.py) -/

/-- Embeds `DataLayer`: the medallion tiers. -/
inductive DataLayer where
  | bronze
  | silver
  | gold
deriving DecidableEq, Repr

/-- The string value of each `DataLayer` member. -/
def DataLayer.value : DataLayer → String
  | DataLayer.bronze => "bronze"
  | DataLayer.silver => "silver"
  | DataLayer.gold => "gold"

/-- Embeds `TableName`: the registry of logical table names. -/
inductive TableName where
  | agent_runs
deriving DecidableEq, Repr

/-- The string value of each `TableName` member. -/
def TableName.value : TableName → String
  | TableName.agent_runs => "agent_runs"

/-- The closed set of environment tokens of `EnvironmentType`
(`Literal["local", "dev", "stg", "prod"]`). -/
def environments : List String := ["local", "dev", "stg", "prod"]

/-- Embeds `TableNameManager`: a resolved environment string plus a layer.
(`env=None` construction reads the ambient settings before storing; `get`
only ever sees the stored string.) -/
structure TableNameManager where
  env : String
  layer : DataLayer
deriving DecidableEq, Repr

/-- Embeds `TableNameManager.get`: the f-string
`"{self.env}_{self.layer.value}_{table.value}"`. -/
def TableNameManager.get (m : TableNameManager) (table : TableName) : String :=
  m.env ++ "_" ++ m.layer.value ++ "_" ++ table.value

/-! ## Theorems -/

/-- Both set differences empty exactly when the two sets coincide. -/
theorem sdiff_sdiff_empty_iff_eq {s t : Finset String} :
    (s \ t = ∅ ∧ t \ s = ∅) ↔ s = t := by
  constructor
  · rintro ⟨h1, h2⟩
    exact Finset.Subset.antisymm
      (Finset.sdiff_eq_empty_iff_subset.mp h1)
      (Finset.sdiff_eq_empty_iff_subset.mp h2)
  · rintro rfl
    simp

/-- C2: `validate_variables` is a total function (so it never raises and
has no side effects), returns at most two messages — one carrying the
placeholders missing from the declared set, one carrying the declared
variables missing from the placeholders — and returns `[]` exactly when
the placeholder set of the body equals the declared variable set. -/
theorem validate_variables_spec (t : PromptTemplate) :
    t.validate_variables.length ≤ 2 ∧
      (∀ m ∈ t.validate_variables,
        m = VMsg.undeclared (placeholderSet t \ t.vars.toFinset) ∨
          m = VMsg.unused (t.vars.toFinset \ placeholderSet t)) ∧
      (t.validate_variables = [] ↔ placeholderSet t = t.vars.toFinset) := by
  unfold PromptTemplate.validate_variables
  by_cases h1 : placeholderSet t \ t.vars.toFinset = ∅ <;>
    by_cases h2 : t.vars.toFinset \ placeholderSet t = ∅ <;>
      simp [h1, h2, ← sdiff_sdiff_empty_iff_eq]

/-- Closed witness for `validate_variables_spec`: instantiate the
message-classification conjunct at a template with one undeclared
placeholder. -/
theorem validate_variables_spec_witness :
    VMsg.undeclared {"name"}
        = VMsg.undeclared
            (placeholderSet ⟨"w", "1", "", "Hello {name}!", []⟩ \
              (PromptTemplate.vars ⟨"w", "1", "", "Hello {name}!", []⟩).toFinset) ∨
      VMsg.undeclared {"name"}
        = VMsg.unused
            ((PromptTemplate.vars ⟨"w", "1", "", "Hello {name}!", []⟩).toFinset \
              placeholderSet ⟨"w", "1", "", "Hello {name}!", []⟩) :=
  (validate_variables_spec ⟨"w", "1", "", "Hello {name}!", []⟩).2.1
    (VMsg.undeclared {"name"}) (by decide)

/-- C5: `TableNameManager.get` returns exactly the string
`{env}_{layer}_{table}` (pure, hence deterministic); on the closed
environment set it is injective in the `(environment, layer, table)`
triple; and the spec's concrete example holds. -/
theorem tableNameManager_get_spec :
    (∀ (m : TableNameManager) (t : TableName),
        m.get t = m.env ++ "_" ++ m.layer.value ++ "_" ++ t.value) ∧
      TableNameManager.get ⟨"dev", DataLayer.silver⟩ TableName.agent_runs
        = "dev_silver_agent_runs" ∧
      (∀ e1 e2 l1 l2 t1 t2, e1 ∈ environments → e2 ∈ environments →
        TableNameManager.get ⟨e1, l1⟩ t1 = TableNameManager.get ⟨e2, l2⟩ t2 →
        e1 = e2 ∧ l1 = l2 ∧ t1 = t2) := by
  refine ⟨fun m t => rfl, by decide, ?_⟩
  intro e1 e2 l1 l2 t1 t2 h1 h2 heq
  simp only [environments, List.mem_cons, List.not_mem_nil, or_false] at h1 h2
  rcases h1 with rfl | rfl | rfl | rfl <;> rcases h2 with rfl | rfl | rfl | rfl <;>
    cases l1 <;> cases l2 <;> cases t1 <;> cases t2 <;> revert heq <;> decide

/-- Closed witness for `tableNameManager_get_spec`: instantiate the
injectivity conjunct at a concrete triple, discharging both membership
hypotheses and the equation. -/
theorem tableNameManager_get_spec_witness :
    "dev" = "dev" ∧ DataLayer.silver = DataLayer.silver ∧
      TableName.agent_runs = TableName.agent_runs :=
  tableNameManager_get_spec.2.2 "dev" "dev" DataLayer.silver DataLayer.silver
    TableName.agent_runs TableName.agent_runs (by decide) (by decide) rfl

/-! ### Schema alignment lemmas -/

/-- Membership in a one-element conditional list. -/
theorem mem_if_singleton {α : Type} {c : Prop} [Decidable c] {x e : α} :
    e ∈ (if c then [x] else []) ↔ c ∧ e = x := by
  by_cases h : c <;> simp [h]

/-- Exactly which errors `validate_schema_alignment` emits. -/
theorem mem_validate_schema_alignment {llm db : Schema} {strict : Bool} {e : AlignError} :
    e ∈ validate_schema_alignment llm db strict ↔
      ((fieldSet llm \ fieldSet db ≠ ∅ ∧
          e = AlignError.missingInDb (fieldSet llm \ fieldSet db)) ∨
       (((strict = true) ∧
            (fieldSet db \ fieldSet llm) \ ({"id", "created_at", "updated_at"} : Finset String) ≠ ∅) ∧
          e = AlignError.extraInDb
            ((fieldSet db \ fieldSet llm) \ ({"id", "created_at", "updated_at"} : Finset String))) ∨
       (∃ p ∈ llm, ∃ dt, List.lookup p.1 db = some dt ∧
          _types_compatible (_normalize_type p.2) (_normalize_type dt) = false ∧
          e = AlignError.typeMismatch p.1 p.2 dt)) := by
  unfold validate_schema_alignment
  simp only [List.mem_append, mem_if_singleton, List.mem_filterMap]
  rw [or_assoc]
  refine or_congr Iff.rfl (or_congr Iff.rfl ?_)
  refine exists_congr fun p => and_congr_right fun _ => ?_
  cases hl : List.lookup p.1 db with
  | none => simp
  | some dbTy =>
    by_cases hc : _types_compatible (_normalize_type p.2) (_normalize_type dbTy) = true
    · simp [hc]
    · simp only [Bool.not_eq_true] at hc
      constructor
      · intro h
        exact ⟨dbTy, rfl, hc,
          ((by simpa [hc] using h : AlignError.typeMismatch p.1 p.2 dbTy = e)).symm⟩
      · rintro ⟨dt, hdt, hcc, rfl⟩
        cases hdt
        simp [hc]

/-- Unwrapping fixes every non-union annotation. -/
theorem unwrap_of_not_union {t : PyTy} (h : t.isUnion = false) :
    _unwrap_optional t = t := by
  cases t <;> simp_all [PyTy.isUnion, _unwrap_optional, PyTy.hasOrigin]

/-- Compatibility is reflexive (the `type1 == type2` branch). -/
theorem types_compatible_refl (a : PyTy) : _types_compatible a a = true := by
  simp [_types_compatible]

/-- On flat annotations, `_normalize_type` already reaches the fixed point
of the unwrapping, so the second unwrap in `_types_compatible` is the
identity. -/
theorem unwrap_normalize_of_flat {t : PyTy} (h : t.flat = true) :
    _unwrap_optional (_normalize_type t) = _normalize_type t := by
  cases t with
  | union a b =>
    simp only [PyTy.flat, Bool.and_eq_true, Bool.not_eq_true'] at h
    obtain ⟨ha', hb'⟩ := h
    by_cases ha : a = PyTy.noneT <;> by_cases hb : b = PyTy.noneT
    · subst ha; subst hb; decide
    · subst ha
      have : _normalize_type (PyTy.union PyTy.noneT b) = b := by
        simp [_normalize_type, PyTy.hasOrigin, PyTy.nonNoneArgs, hb]
      rw [this]
      exact unwrap_of_not_union hb'
    · subst hb
      have : _normalize_type (PyTy.union a PyTy.noneT) = a := by
        simp [_normalize_type, PyTy.hasOrigin, PyTy.nonNoneArgs, ha]
      rw [this]
      exact unwrap_of_not_union ha'
    · have : _normalize_type (PyTy.union a b) = PyTy.union a b := by
        simp [_normalize_type, PyTy.hasOrigin, PyTy.nonNoneArgs, ha, hb]
      rw [this]
      simp [_unwrap_optional, PyTy.hasOrigin, PyTy.nonNoneArgs, ha, hb]
  | _ => simp_all [PyTy.flat, _normalize_type, _unwrap_optional, PyTy.hasOrigin]

/-- On annotations the unwrap fixes, compatibility is identity-or-numeric. -/
theorem types_compatible_char {a b : PyTy}
    (ha : _unwrap_optional a = a) (hb : _unwrap_optional b = b) :
    _types_compatible a b = true ↔
      (a = b ∨ ((a = PyTy.int ∨ a = PyTy.float) ∧ (b = PyTy.int ∨ b = PyTy.float))) := by
  by_cases hab : a = b
  · simp [hab, types_compatible_refl]
  · simp [_types_compatible, hab, ha, hb]

/-- C3: for flat annotations (all Python annotations are flat, since
`typing` flattens unions), a shared field yields a type-mismatch error
exactly when the normalized types are neither identical nor both in the
numeric pair `{int, float}`; and the spec's two concrete examples. -/
theorem schema_alignment_type_mismatch_spec :
    (∀ (llm db : Schema) (strict : Bool) (f : String) (lt dt : PyTy),
        (f, lt) ∈ llm → List.lookup f db = some dt →
        lt.flat = true → dt.flat = true →
        (AlignError.typeMismatch f lt dt ∈ validate_schema_alignment llm db strict ↔
          ¬(_normalize_type lt = _normalize_type dt ∨
            ((_normalize_type lt = PyTy.int ∨ _normalize_type lt = PyTy.float) ∧
              (_normalize_type dt = PyTy.int ∨ _normalize_type dt = PyTy.float))))) ∧
      validate_schema_alignment [("count", PyTy.str)] [("count", PyTy.int)] false
        = [AlignError.typeMismatch "count" PyTy.str PyTy.int] ∧
      validate_schema_alignment [("score", PyTy.int)] [("score", PyTy.float)] false = [] := by
  refine ⟨?_, by decide, by decide⟩
  intro llm db strict f lt dt hmem hlk hfl hfd
  rw [mem_validate_schema_alignment]
  constructor
  · rintro (⟨-, h⟩ | ⟨-, h⟩ | ⟨p, hp, dt', hlk', hcf, he⟩)
    · cases h
    · cases h
    · obtain ⟨h1, h2, h3⟩ : p.1 = f ∧ p.2 = lt ∧ dt' = dt := by
        cases he; exact ⟨rfl, rfl, rfl⟩
      subst h1; subst h2; subst h3
      rw [← types_compatible_char (unwrap_normalize_of_flat hfl) (unwrap_normalize_of_flat hfd)]
      simp [hcf]
  · intro h
    refine Or.inr (Or.inr ⟨(f, lt), hmem, dt, hlk, ?_, rfl⟩)
    rw [← types_compatible_char (unwrap_normalize_of_flat hfl)
      (unwrap_normalize_of_flat hfd)] at h
    simpa using h

/-- Closed witness for `schema_alignment_type_mismatch_spec`: instantiate
the characterization at the `count : str` vs `count : int` example. -/
theorem schema_alignment_type_mismatch_spec_witness :
    AlignError.typeMismatch "count" PyTy.str PyTy.int ∈
      validate_schema_alignment [("count", PyTy.str)] [("count", PyTy.int)] false :=
  (schema_alignment_type_mismatch_spec.1 [("count", PyTy.str)] [("count", PyTy.int)]
      false "count" PyTy.str PyTy.int (by decide) (by decide) (by decide) (by decide)).mpr
    (by decide)

/-- C4: `validate_schema_alignment` reports a missing-in-target error
exactly for the non-empty set of source fields absent from the target;
in strict mode it reports an extra-fields error exactly for the non-empty
set of target-only fields outside the `id`/`created_at`/`updated_at`
allow-list; with `strict = false` no extra-fields error ever appears, and a
source whose fields are a subset of the target's with identical declared
types on shared fields yields zero errors. -/
theorem schema_alignment_missing_fields_spec :
    (∀ (llm db : Schema) (strict : Bool) (s : Finset String),
        AlignError.missingInDb s ∈ validate_schema_alignment llm db strict ↔
          (s = fieldSet llm \ fieldSet db ∧ s ≠ ∅)) ∧
      (∀ (llm db : Schema) (s : Finset String),
        AlignError.extraInDb s ∈ validate_schema_alignment llm db true ↔
          (s = (fieldSet db \ fieldSet llm) \ ({"id", "created_at", "updated_at"} : Finset String) ∧
            s ≠ ∅)) ∧
      (∀ (llm db : Schema) (s : Finset String),
        AlignError.extraInDb s ∉ validate_schema_alignment llm db false) ∧
      (∀ llm db : Schema, fieldSet llm ⊆ fieldSet db →
        (∀ f lt dt, (f, lt) ∈ llm → List.lookup f db = some dt → lt = dt) →
        validate_schema_alignment llm db false = []) := by
  refine ⟨?_, ?_, ?_, ?_⟩
  · intro llm db strict s
    rw [mem_validate_schema_alignment]
    constructor
    · rintro (⟨hne, he⟩ | ⟨-, he⟩ | ⟨p, -, dt, -, -, he⟩)
      · cases he; exact ⟨rfl, hne⟩
      · cases he
      · cases he
    · rintro ⟨rfl, hne⟩
      exact Or.inl ⟨hne, rfl⟩
  · intro llm db s
    rw [mem_validate_schema_alignment]
    constructor
    · rintro (⟨-, he⟩ | ⟨⟨-, hne⟩, he⟩ | ⟨p, -, dt, -, -, he⟩)
      · cases he
      · cases he; exact ⟨rfl, hne⟩
      · cases he
    · rintro ⟨rfl, hne⟩
      exact Or.inr (Or.inl ⟨⟨rfl, hne⟩, rfl⟩)
  · intro llm db s
    rw [mem_validate_schema_alignment]
    rintro (⟨-, he⟩ | ⟨⟨hs, -⟩, -⟩ | ⟨p, -, dt, -, -, he⟩)
    · cases he
    · cases hs
    · cases he
  · intro llm db hsub htypes
    unfold validate_schema_alignment
    have h1 : fieldSet llm \ fieldSet db = ∅ := Finset.sdiff_eq_empty_iff_subset.mpr hsub
    simp only [h1, ne_eq, not_true_eq_false, if_false, ite_false, false_and, if_neg,
      List.nil_append]
    rw [if_neg (by simp), List.nil_append, List.filterMap_eq_nil_iff]
    intro p hp
    cases hl : List.lookup p.1 db with
    | none => rfl
    | some dbTy =>
      have : dbTy = p.2 := (htypes p.1 p.2 dbTy (by simpa using hp) hl).symm
      subst this
      simp [types_compatible_refl]

/-- Closed witness for `schema_alignment_missing_fields_spec`: the spec's
subset example, source `{name}` against target `{name, id}`, yields zero
errors. -/
theorem schema_alignment_missing_fields_spec_witness :
    validate_schema_alignment [("name", PyTy.str)] [("name", PyTy.str), ("id", PyTy.int)]
      false = [] := by
  refine schema_alignment_missing_fields_spec.2.2.2 _ _ (by decide) ?_
  intro f lt dt hm hl
  simp only [List.mem_singleton, Prod.mk.injEq] at hm
  obtain ⟨rfl, rfl⟩ := hm
  simp only [List.lookup] at hl
  norm_num at hl
  exact hl

/-- C9 (implicit): the numeric compatibility pair is exactly `{int, float}`
by type identity; a shared field that unwraps to `bool` on one side and to
`int` or `float` on the other is always reported as a type mismatch, even
though `bool` subclasses `int` in Python. -/
theorem schema_alignment_bool_not_numeric
    (llm db : Schema) (strict : Bool) (f : String) (lt dt : PyTy)
    (hmem : (f, lt) ∈ llm) (hlk : List.lookup f db = some dt)
    (h : (_unwrap_optional (_normalize_type lt) = PyTy.bool ∧
            (_unwrap_optional (_normalize_type dt) = PyTy.int ∨
              _unwrap_optional (_normalize_type dt) = PyTy.float)) ∨
         (_unwrap_optional (_normalize_type dt) = PyTy.bool ∧
            (_unwrap_optional (_normalize_type lt) = PyTy.int ∨
              _unwrap_optional (_normalize_type lt) = PyTy.float))) :
    AlignError.typeMismatch f lt dt ∈ validate_schema_alignment llm db strict := by
  rw [mem_validate_schema_alignment]
  refine Or.inr (Or.inr ⟨(f, lt), hmem, dt, hlk, ?_, rfl⟩)
  set a := _normalize_type lt with hadef
  set b := _normalize_type dt with hbdef
  have hne : a ≠ b := by
    intro hab
    rw [hab] at h
    rcases h with ⟨h1, h2 | h2⟩ | ⟨h1, h2 | h2⟩ <;> rw [h1] at h2 <;> cases h2
  simp only [_types_compatible, if_neg hne]
  rcases h with ⟨h1, h2⟩ | ⟨h1, h2⟩
  · have hne2 : _unwrap_optional a ≠ _unwrap_optional b := by
      rw [h1]; rcases h2 with h2 | h2 <;> rw [h2] <;> decide
    simp only [if_neg hne2]
    rw [h1]
    rcases h2 with h2 | h2 <;> simp [h2]
  · have hne2 : _unwrap_optional a ≠ _unwrap_optional b := by
      rw [h1]; rcases h2 with h2 | h2 <;> rw [h2] <;> decide
    simp only [if_neg hne2]
    rcases h2 with h2 | h2 <;> simp [h1, h2]

/-- Closed witness for `schema_alignment_bool_not_numeric`: a `bool`
source field against an `int` target field is reported. -/
theorem schema_alignment_bool_not_numeric_witness :
    AlignError.typeMismatch "flag" PyTy.bool PyTy.int ∈
      validate_schema_alignment [("flag", PyTy.bool)] [("flag", PyTy.int)] false :=
  schema_alignment_bool_not_numeric [("flag", PyTy.bool)] [("flag", PyTy.int)] false
    "flag" PyTy.bool PyTy.int (by decide) (by decide) (Or.inl ⟨by decide, Or.inl (by decide)⟩)

/-! ### Registry lemmas -/

/-- Dict assignment leaves the key list unchanged when the key is present,
and appends the key otherwise. -/
theorem list_prompts_dictInsert (reg : Registry) (k : String) (v : PromptTemplate) :
    list_prompts (dictInsert reg k v) =
      if k ∈ list_prompts reg then list_prompts reg else list_prompts reg ++ [k] := by
  induction reg with
  | nil => simp [dictInsert, list_prompts]
  | cons kv rest ih =>
    by_cases h : kv.1 = k
    · subst h
      simp [dictInsert, list_prompts]
    · have h' : ¬ k = kv.1 := fun hh => h hh.symm
      simp only [list_prompts, List.map_cons] at ih ⊢
      simp only [dictInsert, if_neg h, List.map_cons]
      rw [ih]
      by_cases hk : k ∈ List.map Prod.fst rest
      · simp [List.mem_cons, hk, h']
      · simp [List.mem_cons, hk, h']

/-- After `d[k] = v`, looking up `k` yields `v`. -/
theorem lookup_dictInsert_self (reg : Registry) (k : String) (v : PromptTemplate) :
    List.lookup k (dictInsert reg k v) = some v := by
  induction reg with
  | nil => simp [dictInsert, List.lookup]
  | cons kv rest ih =>
    by_cases h : kv.1 = k
    · subst h
      simp [dictInsert, List.lookup]
    · have h' : ¬ k = kv.1 := fun hh => h hh.symm
      have hb : (k == kv.1) = false := by simp [h']
      simp [dictInsert, if_neg h, List.lookup, hb, ih]

/-- Dict assignment preserves key uniqueness. -/
theorem nodup_list_prompts_dictInsert (reg : Registry) (k : String) (v : PromptTemplate)
    (h : (list_prompts reg).Nodup) : (list_prompts (dictInsert reg k v)).Nodup := by
  rw [list_prompts_dictInsert]
  by_cases hk : k ∈ list_prompts reg
  · simpa [hk] using h
  · simp [hk, List.nodup_append, h]

/-- Every entry after an assignment is an old entry or the assigned pair. -/
theorem mem_dictInsert {kv : String × PromptTemplate} (reg : Registry) (k : String)
    (v : PromptTemplate) (h : kv ∈ dictInsert reg k v) :
    kv ∈ reg ∨ (kv.1 = k ∧ kv.2 = v) := by
  induction reg with
  | nil =>
    simp [dictInsert] at h
    simp [h]
  | cons kv2 rest ih =>
    by_cases hk : kv2.1 = k
    · simp only [dictInsert, hk, if_true, ite_true, List.mem_cons] at h
      rcases h with rfl | h
      · exact Or.inr ⟨rfl, rfl⟩
      · exact Or.inl (List.mem_cons_of_mem _ h)
    · simp only [dictInsert, hk, if_false, ite_false, List.mem_cons] at h
      rcases h with rfl | h
      · exact Or.inl (List.mem_cons_self _ _)
      · rcases ih h with h | h
        · exact Or.inl (List.mem_cons_of_mem _ h)
        · exact Or.inr h

/-- Registration preserves the key-equals-name invariant. -/
theorem register_preserves_name_inv (reg : Registry) (p : PromptTemplate)
    (h : ∀ kv ∈ reg, kv.1 = kv.2.name) :
    ∀ kv ∈ register reg p, kv.1 = kv.2.name := by
  intro kv hkv
  rcases mem_dictInsert reg p.name p hkv with hm | ⟨h1, h2⟩
  · exact h kv hm
  · rw [h1, h2]

/-- Any sequence of `register` calls preserves the key-equals-name
invariant. -/
theorem foldl_register_name_inv (ps : List PromptTemplate) (reg : Registry)
    (h : ∀ kv ∈ reg, kv.1 = kv.2.name) :
    ∀ kv ∈ List.foldl register reg ps, kv.1 = kv.2.name := by
  induction ps generalizing reg with
  | nil => simpa using h
  | cons p ps ih =>
    simpa using ih (register reg p) (register_preserves_name_inv reg p h)

/-- The assigned key is always among the keys afterwards. -/
theorem mem_list_prompts_dictInsert_self (reg : Registry) (k : String) (v : PromptTemplate) :
    k ∈ list_prompts (dictInsert reg k v) := by
  rw [list_prompts_dictInsert]
  by_cases hk : k ∈ list_prompts reg <;> simp [hk]

/-- Old keys survive any assignment. -/
theorem mem_list_prompts_dictInsert_of_mem (reg : Registry) (k n : String)
    (v : PromptTemplate) (h : n ∈ list_prompts reg) :
    n ∈ list_prompts (dictInsert reg k v) := by
  rw [list_prompts_dictInsert]
  by_cases hk : k ∈ list_prompts reg <;> simp [hk, h]

/-- Old keys survive a directory load, whether or not it fails. -/
theorem load_from_directory_names_monotone (docs : List RawDoc) (reg : Registry)
    (n : String) (h : n ∈ list_prompts reg) :
    n ∈ list_prompts (load_from_directory reg docs).1 := by
  induction docs generalizing reg with
  | nil => simpa using h
  | cons r rs ih =>
    unfold load_from_directory load_from_yaml
    cases hl : loadDoc r with
    | error e => simpa using h
    | ok t =>
      have h2 := ih (register reg t) (mem_list_prompts_dictInsert_of_mem reg t.name n t h)
      cases hrec : load_from_directory (register reg t) rs with
      | mk reg2 res =>
        rw [hrec] at h2
        simp only [hrec]
        cases res <;> simpa using h2

/-- Directory loads preserve the key-equals-name invariant. -/
theorem load_from_directory_name_inv (docs : List RawDoc) (reg : Registry)
    (h : ∀ kv ∈ reg, kv.1 = kv.2.name) :
    ∀ kv ∈ (load_from_directory reg docs).1, kv.1 = kv.2.name := by
  induction docs generalizing reg with
  | nil => simpa using h
  | cons r rs ih =>
    unfold load_from_directory load_from_yaml
    cases hl : loadDoc r with
    | error e => simpa using h
    | ok t =>
      have h2 := ih (register reg t) (register_preserves_name_inv reg t h)
      cases hrec : load_from_directory (register reg t) rs with
      | mk reg2 res =>
        rw [hrec] at h2
        simp only [hrec]
        cases res <;> simpa using h2

/-- C7: every stored entry's key equals the stored template's name, under
any sequence of registrations and also through directory loads;
re-registering a name replaces the previous template without error, after
which `get` returns the second template and the name appears exactly once
in `list_prompts`; and the set of registered names never shrinks, neither
under `register` nor under `load_from_directory`. -/
theorem prompt_registry_spec :
    (∀ ps : List PromptTemplate, ∀ kv ∈ List.foldl register [] ps, kv.1 = kv.2.name) ∧
      (∀ (docs : List RawDoc) (reg : Registry), (∀ kv ∈ reg, kv.1 = kv.2.name) →
        ∀ kv ∈ (load_from_directory reg docs).1, kv.1 = kv.2.name) ∧
      (∀ (reg : Registry) (p1 p2 : PromptTemplate), p1.name = p2.name →
        getPrompt (register (register reg p1) p2) p1.name = some p2) ∧
      (∀ (reg : Registry) (p1 p2 : PromptTemplate), (list_prompts reg).Nodup →
        p1.name = p2.name →
        (list_prompts (register (register reg p1) p2)).count p1.name = 1) ∧
      (∀ (reg : Registry) (p : PromptTemplate) (n : String),
        n ∈ list_prompts reg → n ∈ list_prompts (register reg p)) ∧
      (∀ (reg : Registry) (docs : List RawDoc) (n : String),
        n ∈ list_prompts reg → n ∈ list_prompts (load_from_directory reg docs).1) := by
  refine ⟨?_, ?_, ?_, ?_, ?_, ?_⟩
  · intro ps
    exact foldl_register_name_inv ps [] (by simp)
  · intro docs reg h
    exact load_from_directory_name_inv docs reg h
  · intro reg p1 p2 hname
    unfold getPrompt register
    rw [hname]
    exact lookup_dictInsert_self _ _ _
  · intro reg p1 p2 hnd hname
    have hnd2 : (list_prompts (register (register reg p1) p2)).Nodup :=
      nodup_list_prompts_dictInsert _ _ _ (nodup_list_prompts_dictInsert _ _ _ hnd)
    have hmem : p1.name ∈ list_prompts (register (register reg p1) p2) := by
      rw [hname]
      exact mem_list_prompts_dictInsert_self _ _ _
    exact List.count_eq_one_of_mem hnd2 hmem
  · intro reg p n h
    exact mem_list_prompts_dictInsert_of_mem reg p.name n p h
  · intro reg docs n h
    exact load_from_directory_names_monotone docs reg n h

/-- Closed witness for `prompt_registry_spec`: registering two templates
under the same name, the second wins. -/
theorem prompt_registry_spec_witness :
    getPrompt
        (register (register [] ⟨"n", "1", "", "A", []⟩) ⟨"n", "2", "", "B", []⟩) "n"
      = some ⟨"n", "2", "", "B", []⟩ :=
  prompt_registry_spec.2.2.1 [] ⟨"n", "1", "", "A", []⟩ ⟨"n", "2", "", "B", []⟩ rfl

/-- Fold characterization of the key list after a registration sequence. -/
theorem list_prompts_foldl_register (ps : List PromptTemplate) (reg : Registry) :
    list_prompts (List.foldl register reg ps) =
      list_prompts reg ++ fdAux (list_prompts reg) (ps.map PromptTemplate.name) := by
  induction ps generalizing reg with
  | nil => simp [fdAux]
  | cons p ps ih =>
    simp only [List.foldl_cons, List.map_cons, fdAux]
    rw [ih (register reg p)]
    unfold register
    rw [list_prompts_dictInsert]
    by_cases hk : p.name ∈ list_prompts reg
    · simp [hk]
    · simp [hk, List.append_assoc]

/-- Key uniqueness after any registration sequence. -/
theorem nodup_foldl_register (ps : List PromptTemplate) (reg : Registry)
    (h : (list_prompts reg).Nodup) : (list_prompts (List.foldl register reg ps)).Nodup := by
  induction ps generalizing reg with
  | nil => simpa using h
  | cons p ps ih =>
    simpa using ih (register reg p) (nodup_list_prompts_dictInsert _ _ _ h)

/-- C10 (implicit): after any sequence of registrations starting from an
empty registry, `list_prompts` is exactly the registered names in order of
first registration (re-registration keeps the original position), with no
duplicates. -/
theorem list_prompts_first_registration_order (ps : List PromptTemplate) :
    list_prompts (List.foldl register [] ps) = fdAux [] (ps.map PromptTemplate.name) ∧
      (list_prompts (List.foldl register [] ps)).Nodup := by
  constructor
  · simpa [list_prompts] using list_prompts_foldl_register ps []
  · exact nodup_foldl_register ps [] (by simp [list_prompts])

/-- C6: if every file before `d` loads successfully and `d` fails, then
`load_from_directory` on `pre ++ d :: post` fails with `d`'s error, never
touches the files after `d` (the run equals the run on `pre ++ [d]`), and
the registry holds exactly the prefix loaded before the failure. -/
theorem load_from_directory_fail_spec (reg : Registry) (pre : List RawDoc)
    (d : RawDoc) (post : List RawDoc) (e : LoadError)
    (hpre : ∀ p ∈ pre, ∃ t, loadDoc p = Except.ok t)
    (hd : loadDoc d = Except.error e) :
    load_from_directory reg (pre ++ d :: post) = load_from_directory reg (pre ++ [d]) ∧
      (load_from_directory reg (pre ++ d :: post)).2 = Except.error e ∧
      (load_from_directory reg (pre ++ d :: post)).1 =
        List.foldl
          (fun rg p =>
            match loadDoc p with
            | Except.ok t => register rg t
            | Except.error _ => rg)
          reg pre := by
  induction pre generalizing reg with
  | nil =>
    simp [load_from_directory, load_from_yaml, hd]
  | cons p pre ih =>
    obtain ⟨t, ht⟩ := hpre p (List.mem_cons_self _ _)
    have hpre2 : ∀ q ∈ pre, ∃ t, loadDoc q = Except.ok t :=
      fun q hq => hpre q (List.mem_cons_of_mem _ hq)
    obtain ⟨ih1, ih2, ih3⟩ := ih (register reg t) hpre2
    simp only [List.cons_append, load_from_directory, load_from_yaml, ht]
    cases hrec : load_from_directory (register reg t) (pre ++ d :: post) with
    | mk reg2 res =>
      rw [hrec] at ih1 ih2 ih3
      simp only at ih2 ih3
      subst ih2
      simp only [List.append_eq]
      rw [← ih1]
      refine ⟨?_, ?_, ?_⟩ <;> first | trivial | simpa [ht] using ih3

/-- Closed witness for `load_from_directory_fail_spec`: one good file,
then a malformed file, then another good file — the load fails with the
parse error. -/
theorem load_from_directory_fail_spec_witness :
    (load_from_directory ([] : Registry)
        ([RawDoc.parsed ⟨some "p1", none, none, some "T1", none⟩] ++
          RawDoc.malformed :: [RawDoc.parsed ⟨some "p2", none, none, some "T2", none⟩])).2
      = Except.error LoadError.parseError :=
  (load_from_directory_fail_spec [] [RawDoc.parsed ⟨some "p1", none, none, some "T1", none⟩]
      RawDoc.malformed [RawDoc.parsed ⟨some "p2", none, none, some "T2", none⟩]
      LoadError.parseError
      (by
        intro p hp
        simp only [List.mem_singleton] at hp
        subst hp
        exact ⟨⟨"p1", "1.0.0", "", "T1", []⟩, by decide⟩)
      rfl).2.1

/-- A non-empty string has non-zero length. -/
theorem string_length_ne_zero {n : String} (h : n ≠ "") : n.length ≠ 0 := by
  intro h0
  apply h
  have : n.data.length = 0 := h0
  have hd : n.data = [] := List.length_eq_zero.mp this
  cases n
  simp_all

/-- C8 (amended): construction fails with `ValidationError` whenever the
name or template is missing or the empty string; `variables` is coerced to
`[]` when absent or `None`, to a one-element list for a single string, is
accepted for any iterable of strings — a list, or a non-sequence iterable
such as a set (taken in its iteration order) — and any non-iterable value
or iterable with non-string elements fails validation. -/
theorem prompt_construct_spec :
    (∀ d : PromptDoc,
        (d.name = none ∨ d.name = some "" ∨ d.template = none ∨ d.template = some "") →
        construct d = Except.error LoadError.validationError) ∧
      (∀ (n tpl : String) (v ds : Option String) (vv : Option VarValue),
        n ≠ "" → tpl ≠ "" →
        ((vv = none ∨ vv = some VarValue.noneV →
            construct ⟨some n, v, ds, some tpl, vv⟩ =
              Except.ok ⟨n, v.getD "1.0.0", ds.getD "", tpl, []⟩) ∧
          (∀ s, vv = some (VarValue.strV s) →
            construct ⟨some n, v, ds, some tpl, vv⟩ =
              Except.ok ⟨n, v.getD "1.0.0", ds.getD "", tpl, [s]⟩) ∧
          (∀ l, vv = some (VarValue.listStrV l) ∨ vv = some (VarValue.setStrV l) →
            construct ⟨some n, v, ds, some tpl, vv⟩ =
              Except.ok ⟨n, v.getD "1.0.0", ds.getD "", tpl, l⟩) ∧
          ((∃ l, vv = some (VarValue.listIntV l)) ∨ (∃ k, vv = some (VarValue.intV k)) →
            construct ⟨some n, v, ds, some tpl, vv⟩ =
              Except.error LoadError.validationError))) := by
  have hgen : ∀ (n tpl : String) (v ds : Option String) (vv : Option VarValue),
      n ≠ "" → tpl ≠ "" →
      construct ⟨some n, v, ds, some tpl, vv⟩ =
        (match coerceVars vv with
         | Except.ok l => Except.ok ⟨n, v.getD "1.0.0", ds.getD "", tpl, l⟩
         | Except.error e => Except.error e) := by
    intro n tpl v ds vv hn ht
    have hdef : construct ⟨some n, v, ds, some tpl, vv⟩ =
        (if n.length < 1 ∨ tpl.length < 1 then Except.error LoadError.validationError
         else match coerceVars vv with
           | Except.error e => Except.error e
           | Except.ok vs =>
             Except.ok ⟨n, v.getD "1.0.0", ds.getD "", tpl, vs⟩) := rfl
    have hn0 := string_length_ne_zero hn
    have ht0 := string_length_ne_zero ht
    rw [hdef, if_neg (by omega)]
    cases hc : coerceVars vv <;> rfl
  constructor
  · rintro ⟨nm, v, ds, tp, vv⟩ h
    rcases h with h | h | h | h
    · subst h; rfl
    · subst h
      cases tp with
      | none => rfl
      | some t => simp [construct]
    · subst h
      cases nm with
      | none => rfl
      | some nm2 => rfl
    · subst h
      cases nm with
      | none => rfl
      | some nm2 => simp [construct]
  · intro n tpl v ds vv hn ht
    refine ⟨?_, ?_, ?_, ?_⟩
    · rintro (rfl | rfl) <;> rw [hgen n tpl v ds _ hn ht] <;> rfl
    · rintro s rfl
      rw [hgen n tpl v ds _ hn ht]
      rfl
    · rintro l (rfl | rfl) <;> rw [hgen n tpl v ds _ hn ht] <;> rfl
    · rintro (⟨l, rfl⟩ | ⟨k, rfl⟩) <;> rw [hgen n tpl v ds _ hn ht] <;> rfl

/-- Counterexample for the original C8: a Python set of strings — not an
absent value, not a single string, not a sequence of strings — is accepted
by construction instead of failing validation (`ensure_list` applies
`list(v)` to any iterable). -/
theorem prompt_construct_set_accepted :
    construct ⟨some "x", none, none, some "y", some (VarValue.setStrV ["a"])⟩
      = Except.ok ⟨"x", "1.0.0", "", "y", ["a"]⟩ := by
  decide

/-- Closed witness for `prompt_construct_spec`: a concrete construction
with a single-string `variables` value. -/
theorem prompt_construct_spec_witness :
    construct ⟨some "greeting", some "2.0.0", none, some "Hello {name}!",
        some (VarValue.strV "name")⟩
      = Except.ok ⟨"greeting", "2.0.0", "", "Hello {name}!", ["name"]⟩ :=
  (prompt_construct_spec.2 "greeting" "Hello {name}!" (some "2.0.0") none
      (some (VarValue.strV "name")) (by decide) (by decide)).2.1 "name" rfl

/-! ### Format lemmas -/

/-- Appending nothing to a scan result is the identity. -/
theorem consToks_nil (r : ScanOut) : r.consToks [] = r := by
  cases r <;> rfl

/-- Prepending one token then a list is prepending the longer list. -/
theorem consTok_consToks (t : FTok) (l : List FTok) (r : ScanOut) :
    (r.consToks l).consTok t = r.consToks (t :: l) := by
  cases r <;> rfl

/-- A word character is not a brace and is a plain name character. -/
theorem isWordChar_facts {c : Char} (hc : isWordChar c = true) :
    c ≠ '{' ∧ c ≠ '}' ∧ nameChar c = true := by
  have h1 : c ≠ '{' := by intro h; subst h; exact absurd hc (by decide)
  have h2 : c ≠ '}' := by intro h; subst h; exact absurd hc (by decide)
  have h3 : c ≠ '!' := by intro h; subst h; exact absurd hc (by decide)
  have h4 : c ≠ ':' := by intro h; subst h; exact absurd hc (by decide)
  have h5 : c ≠ '.' := by intro h; subst h; exact absurd hc (by decide)
  have h6 : c ≠ '[' := by intro h; subst h; exact absurd hc (by decide)
  have h7 : c ≠ ']' := by intro h; subst h; exact absurd hc (by decide)
  refine ⟨h1, h2, ?_⟩
  simp [nameChar, h1, h2, h3, h4, h5, h6, h7]

/-- A non-brace character scans as a literal token. -/
theorem scan_lit_cons (c : Char) (hc1 : c ≠ '{') (hc2 : c ≠ '}') (rest : List Char) :
    scanFormatAux none (c :: rest)
      = (scanFormatAux none rest).consTok (FTok.lit (String.singleton c)) := by
  cases rest with
  | nil => simp [scanFormatAux, hc1, hc2]
  | cons c2 rest2 => simp [scanFormatAux, hc1, hc2]

/-- A brace-free prefix scans as literal tokens followed by the scan of
the remainder. -/
theorem scan_append_braceFree (l : List Char) (hl : braceFree l = true) (rest : List Char) :
    scanFormatAux none (l ++ rest)
      = (scanFormatAux none rest).consToks (l.map fun c => FTok.lit (String.singleton c)) := by
  induction l with
  | nil => exact (consToks_nil _).symm
  | cons c l ih =>
    simp only [braceFree, List.all_cons, Bool.and_eq_true, decide_eq_true_eq,
      Bool.and_eq_true] at hl
    have hc1 : c ≠ '{' := by simpa using hl.1.1
    have hc2 : c ≠ '}' := by simpa using hl.1.2
    have hl2 : braceFree l = true := by
      simp [braceFree]
      intro x hx
      have := hl.2
      simp [braceFree] at this
      exact this x hx
    rw [List.cons_append, scan_lit_cons c hc1 hc2, ih hl2, consTok_consToks]
    rfl

/-- Inside a field, a word-character run followed by the closing brace
produces the accumulated field name, subject to the non-empty and
non-positional checks. -/
theorem scan_field_state (w : List Char) (hw : ∀ c ∈ w, isWordChar c = true) :
    ∀ (acc rest : List Char),
      scanFormatAux (some acc) (w ++ '}' :: rest) =
        if acc ++ w ≠ [] ∧ ¬ (acc ++ w).all (·.isDigit) then
          (scanFormatAux none rest).consTok (FTok.field (acc ++ w).asString)
        else ScanOut.err := by
  induction w with
  | nil =>
    intro acc rest
    simp [scanFormatAux]
  | cons c w ih =>
    intro acc rest
    have hc : isWordChar c = true := hw c (List.mem_cons_self _ _)
    obtain ⟨hne1, hne2, hnc⟩ := isWordChar_facts hc
    have hw2 : ∀ c ∈ w, isWordChar c = true := fun c hcw => hw c (List.mem_cons_of_mem _ hcw)
    rw [List.cons_append]
    have hstep : scanFormatAux (some acc) (c :: (w ++ '}' :: rest)) =
        scanFormatAux (some (acc ++ [c])) (w ++ '}' :: rest) := by
      simp [scanFormatAux, hne1, hne2, hnc]
    rw [hstep, ih hw2 (acc ++ [c]) rest]
    simp [List.append_assoc]

/-- Round trip between a string and its character list. -/
theorem string_asString_data (v : String) : v.data.asString = v := by
  cases v
  rfl

/-- A well-formed `\x7bident\x7d` placeholder scans as one field token. -/
theorem scan_placeholder_chars (w : List Char) (hne : w ≠ [])
    (hall : ∀ c ∈ w, isWordChar c = true) (hdig : w.all (·.isDigit) = false)
    (rest : List Char) :
    scanFormatAux none ('{' :: (w ++ ('}' :: rest)))
      = (scanFormatAux none rest).consTok (FTok.field w.asString) := by
  cases w with
  | nil => exact absurd rfl hne
  | cons c0 cs =>
    have hc0 : isWordChar c0 = true := hall c0 (List.mem_cons_self _ _)
    have hc0ne : c0 ≠ '{' := (isWordChar_facts hc0).1
    have step : scanFormatAux none ('{' :: (c0 :: cs ++ ('}' :: rest))) =
        scanFormatAux (some []) (c0 :: cs ++ ('}' :: rest)) := by
      simp [scanFormatAux, hc0ne]
    rw [step, scan_field_state (c0 :: cs) hall [] rest]
    rw [if_pos ⟨by simp, by simp [hdig]⟩]
    simp

/-- A fully brace-free template scans as all-literal tokens. -/
theorem scan_braceFree (l : List Char) (hl : braceFree l = true) :
    scanFormatAux none l = ScanOut.toks (l.map fun c => FTok.lit (String.singleton c)) := by
  have h := scan_append_braceFree l hl []
  have h0 : scanFormatAux none ([] : List Char) = ScanOut.toks [] := rfl
  rw [List.append_nil] at h
  rw [h, h0]
  simp [ScanOut.consToks]

/-- Scanning a segment template yields exactly its tokens. -/
theorem scan_mkTpl (segs : List (List Char × String)) (last : List Char)
    (hsegs : ∀ p ∈ segs, braceFree p.1 = true ∧ validIdent p.2 = true)
    (hlast : braceFree last = true) :
    scanFormatAux none (mkTpl segs last) = ScanOut.toks (mkToks segs last) := by
  induction segs with
  | nil => exact scan_braceFree last hlast
  | cons seg segs ih =>
    obtain ⟨lit, v⟩ := seg
    obtain ⟨hbf, hvi⟩ := hsegs (lit, v) (List.mem_cons_self _ _)
    have hsegs2 : ∀ p ∈ segs, braceFree p.1 = true ∧ validIdent p.2 = true :=
      fun p hp => hsegs p (List.mem_cons_of_mem _ hp)
    simp only [validIdent, Bool.and_eq_true, Bool.not_eq_true', decide_eq_true_eq] at hvi
    obtain ⟨⟨hne, hallb⟩, hdig⟩ := hvi
    have hall : ∀ c ∈ v.data, isWordChar c = true :=
      fun c hc => (List.all_eq_true.mp hallb) c hc
    show scanFormatAux none (lit ++ '{' :: (v.data ++ ('}' :: mkTpl segs last))) = _
    rw [scan_append_braceFree lit hbf, scan_placeholder_chars v.data hne hall hdig,
      ih hsegs2, string_asString_data]
    rfl

/-- Rendering literal tokens prepends the literal text verbatim. -/
theorem renderToks_lits (b : String → Option String) (l : List Char) (ts : List FTok) :
    renderToks b ((l.map fun c => FTok.lit (String.singleton c)) ++ ts) =
      (renderToks b ts).map (l.asString ++ ·) := by
  induction l with
  | nil =>
    cases h : renderToks b ts with
    | none => simp [h]
    | some a =>
      simp only [List.map_nil, List.nil_append, h, Option.map_some]
      rfl
  | cons c l ih =>
    have hstep : renderToks b (((c :: l).map fun c => FTok.lit (String.singleton c)) ++ ts) =
        (renderToks b ((l.map fun c => FTok.lit (String.singleton c)) ++ ts)).map
          (String.singleton c ++ ·) := by
      simp only [List.map_cons, List.cons_append, renderToks]
      rfl
    rw [hstep, ih]
    cases h : renderToks b ts with
    | none => rfl
    | some a =>
      show some (String.singleton c ++ (l.asString ++ a)) = some ((c :: l).asString ++ a)
      rw [← String.append_assoc]
      rfl

/-- Rendering a segment template against bindings that bind every
placeholder yields the literal pieces with each placeholder replaced by
its bound value. -/
theorem renderToks_mkToks (segs : List (List Char × String)) (last : List Char)
    (b : String → Option String) (hb : ∀ p ∈ segs, (b p.2).isSome = true) :
    renderToks b (mkToks segs last) = some (renderSegs b segs last) := by
  induction segs with
  | nil =>
    have hrl := renderToks_lits b last []
    simp only [List.append_nil] at hrl
    show renderToks b (last.map fun c => FTok.lit (String.singleton c))
      = some (renderSegs b [] last)
    rw [hrl]
    show Option.map (last.asString ++ ·) (some "") = some last.asString
    simp
  | cons seg segs ih =>
    obtain ⟨lit, v⟩ := seg
    obtain ⟨val, hval⟩ := Option.isSome_iff_exists.mp (hb (lit, v) (List.mem_cons_self _ _))
    have hb2 : ∀ p ∈ segs, (b p.2).isSome = true :=
      fun p hp => hb p (List.mem_cons_of_mem _ hp)
    show renderToks b ((lit.map fun c => FTok.lit (String.singleton c))
        ++ FTok.field v :: mkToks segs last) = _
    rw [renderToks_lits]
    have hfv : renderToks b (FTok.field v :: mkToks segs last)
        = some (val ++ renderSegs b segs last) := by
      simp [renderToks, hval, ih hb2]
    rw [hfv]
    show some (lit.asString ++ (val ++ renderSegs b segs last))
      = some (lit.asString ++ (b v).getD "" ++ renderSegs b segs last)
    rw [hval]
    simp [String.append_assoc]

/-- Literal tokens reference no field. -/
theorem fieldNames_lits (l : List Char) :
    fieldNames (l.map fun c => FTok.lit (String.singleton c)) = [] := by
  induction l with
  | nil => rfl
  | cons c l ih => simp [fieldNames, ih]

/-- The fields of a segment template's tokens are its placeholders. -/
theorem fieldNames_mkToks (segs : List (List Char × String)) (last : List Char) :
    fieldNames (mkToks segs last) = segs.map Prod.snd := by
  induction segs with
  | nil => exact fieldNames_lits last
  | cons seg segs ih =>
    obtain ⟨lit, v⟩ := seg
    show fieldNames ((lit.map fun c => FTok.lit (String.singleton c))
        ++ FTok.field v :: mkToks segs last) = _
    have h1 := fieldNames_lits lit
    simp [fieldNames, List.filterMap_append] at h1 ⊢
    simp [fieldNames] at ih
    simp [h1, ih]

/-- Rendering fails as soon as some referenced field is unbound. -/
theorem renderToks_unbound (b : String → Option String) (ts : List FTok)
    (h : ∃ n ∈ fieldNames ts, b n = none) : renderToks b ts = none := by
  induction ts with
  | nil =>
    obtain ⟨n, hn, -⟩ := h
    simp [fieldNames] at hn
  | cons t ts ih =>
    obtain ⟨n, hn, hb⟩ := h
    cases t with
    | lit s =>
      have hn2 : n ∈ fieldNames ts := by simpa [fieldNames] using hn
      simp [renderToks, ih ⟨n, hn2, hb⟩]
    | field m =>
      cases hm : b m with
      | none => simp [renderToks, hm]
      | some v =>
        have hn2 : n ∈ fieldNames ts := by
          rcases (by simpa [fieldNames] using hn : n = m ∨ n ∈ fieldNames ts) with rfl | h2
          · rw [hm] at hb; cases hb
          · exact h2
        simp [renderToks, hm, ih ⟨n, hn2, hb⟩]

/-- Rendering depends only on the bindings of the referenced field
names. -/
theorem renderToks_congr (ts : List FTok) (b1 b2 : String → Option String)
    (h : ∀ n ∈ fieldNames ts, b1 n = b2 n) : renderToks b1 ts = renderToks b2 ts := by
  induction ts with
  | nil => rfl
  | cons t ts ih =>
    cases t with
    | lit s =>
      have h2 : ∀ n ∈ fieldNames ts, b1 n = b2 n := by
        intro n hn
        exact h n (by simpa [fieldNames] using hn)
      simp [renderToks, ih h2]
    | field n =>
      have hn : b1 n = b2 n := h n (by simp [fieldNames])
      have h2 : ∀ m ∈ fieldNames ts, b1 m = b2 m := by
        intro m hm
        apply h
        simp [fieldNames] at hm ⊢
        exact Or.inr hm
      simp only [renderToks, hn, ih h2]

/-- An extra binding whose key is not a declared variable leaves the
missing-variable set unchanged. -/
theorem missingVars_cons_not_var (t : PromptTemplate) (k v : String) (b : Bindings)
    (hk : k ∉ t.vars) : missingVars t ((k, v) :: b) = missingVars t b := by
  unfold missingVars bkeys
  ext x
  simp only [Finset.mem_sdiff, List.mem_toFinset, List.map_cons, List.mem_cons]
  constructor
  · rintro ⟨hx, hnx⟩
    exact ⟨hx, fun hx2 => hnx (Or.inr hx2)⟩
  · rintro ⟨hx, hnx⟩
    refine ⟨hx, ?_⟩
    rintro (rfl | hx2)
    · exact hk hx
    · exact hnx hx2

/-- Lookup ignores a prepended entry with a different key. -/
theorem lookup_cons_ne {n k v : String} (b : Bindings) (h : n ≠ k) :
    List.lookup n ((k, v) :: b) = List.lookup n b := by
  have hb : (n == k) = false := by simp [h]
  simp [List.lookup, hb]

/-- A binding key that is neither declared nor referenced by the template
never changes the result of `format` — the scan is binding-independent,
so failures and out-of-model outcomes agree trivially, and successful
renderings agree because only referenced names are looked up. -/
theorem format_extra_binding (t : PromptTemplate) (b : Bindings) (k v : String)
    (hk : k ∉ t.vars)
    (href : ∀ ts, scanFormat t.template.data = ScanOut.toks ts → k ∉ fieldNames ts) :
    t.format ((k, v) :: b) = t.format b := by
  unfold PromptTemplate.format
  rw [missingVars_cons_not_var t k v b hk]
  by_cases hm : missingVars t b = ∅
  · rw [if_pos hm, if_pos hm]
    have hpf : pyFormat (fun x => List.lookup x ((k, v) :: b)) t.template.data
        = pyFormat (fun x => List.lookup x b) t.template.data := by
      unfold pyFormat
      cases hs : scanFormat t.template.data with
      | err => rfl
      | beyond => rfl
      | toks ts =>
        have hcg : renderToks (fun x => List.lookup x ((k, v) :: b)) ts
            = renderToks (fun x => List.lookup x b) ts := by
          apply renderToks_congr
          intro n hn
          have hnk : n ≠ k := fun hnk => (href ts hs) (hnk ▸ hn)
          exact lookup_cons_ne b hnk
        simp only [hcg]
    rw [hpf]
  · rw [if_neg hm, if_neg hm]

/-- C1 (amended): `format` fails with a `MissingVariable` error naming
exactly the set of declared variables absent from the binding keys when
that set is non-empty; otherwise it succeeds exactly when `str.format`
succeeds.  On templates built from literal text and plain `\x7bname\x7d`
placeholders (no conversion, format-spec, attribute or index fields),
that means: when every placeholder is bound the result is the body with
each placeholder replaced by its bound value via literal textual
substitution, and an unbound placeholder makes it fail with a formatting
error even though the declared-variable check passed.  Binding keys
neither declared nor referenced by the template never change the
result. -/
theorem prompt_format_spec :
    (∀ (t : PromptTemplate) (b : Bindings), missingVars t b ≠ ∅ →
        t.format b = FormatResult.missingVariables (missingVars t b)) ∧
      (∀ (t : PromptTemplate) (b : Bindings) (s : String),
        t.format b = FormatResult.ok s ↔
          (missingVars t b = ∅ ∧
            pyFormat (fun k => List.lookup k b) t.template.data = FmtOut.ok s)) ∧
      (∀ (segs : List (List Char × String)) (last : List Char) (b : String → Option String),
        (∀ p ∈ segs, braceFree p.1 = true ∧ validIdent p.2 = true) →
        braceFree last = true →
        ((∀ p ∈ segs, (b p.2).isSome = true) →
            pyFormat b (mkTpl segs last) = FmtOut.ok (renderSegs b segs last)) ∧
          ((∃ p ∈ segs, b p.2 = none) →
            pyFormat b (mkTpl segs last) = FmtOut.error)) ∧
      (∀ (t : PromptTemplate) (b : Bindings) (k v : String), k ∉ t.vars →
        (∀ ts, scanFormat t.template.data = ScanOut.toks ts → k ∉ fieldNames ts) →
        t.format ((k, v) :: b) = t.format b) := by
  refine ⟨?_, ?_, ?_, ?_⟩
  · intro t b h
    unfold PromptTemplate.format
    rw [if_neg h]
  · intro t b s
    unfold PromptTemplate.format
    by_cases hm : missingVars t b = ∅
    · rw [if_pos hm]
      cases hp : pyFormat (fun k => List.lookup k b) t.template.data with
      | ok s2 => simp [hm, eq_comm]
      | error => simp [hm]
      | beyond => simp [hm]
    · rw [if_neg hm]
      simp [hm]
  · intro segs last b hshape hlast
    constructor
    · intro hbound
      unfold pyFormat scanFormat
      rw [scan_mkTpl segs last hshape hlast]
      simp only [renderToks_mkToks segs last b hbound]
    · rintro ⟨p, hp, hnone⟩
      unfold pyFormat scanFormat
      rw [scan_mkTpl segs last hshape hlast]
      have hub : renderToks b (mkToks segs last) = none := by
        apply renderToks_unbound
        refine ⟨p.2, ?_, hnone⟩
        rw [fieldNames_mkToks]
        exact List.mem_map_of_mem _ hp
      simp only [hub]
  · exact format_extra_binding

/-- Closed witness for `prompt_format_spec`: the spec round-trip example
succeeds, a missing binding raises the missing-variable error naming it,
a bound segment template substitutes, an unbound one fails, and an extra
unreferenced binding does not change the result. -/
theorem prompt_format_spec_witness :
    PromptTemplate.format
        ⟨"greeting", "1.0.0", "", "Hello {name}, welcome to {place}!", ["name", "place"]⟩
        [("name", "Alice"), ("place", "Wonderland")]
      = FormatResult.ok "Hello Alice, welcome to Wonderland!" ∧
    PromptTemplate.format ⟨"t", "1.0.0", "", "Hello {name}!", ["name"]⟩ []
      = FormatResult.missingVariables {"name"} ∧
    pyFormat (fun k => List.lookup k [("name", "Alice")])
        (mkTpl [("Hi ".data, "name")] "!".data)
      = FmtOut.ok (renderSegs (fun k => List.lookup k [("name", "Alice")])
          [("Hi ".data, "name")] "!".data) ∧
    pyFormat (fun k => List.lookup k ([] : Bindings))
        (mkTpl [("Hi ".data, "name")] "!".data)
      = FmtOut.error ∧
    PromptTemplate.format ⟨"t2", "1.0.0", "", "Hello {name}!", ["name"]⟩
        [("extra", "ignored"), ("name", "Bob")]
      = PromptTemplate.format ⟨"t2", "1.0.0", "", "Hello {name}!", ["name"]⟩
          [("name", "Bob")] := by
  refine ⟨?_, ?_, ?_, ?_, ?_⟩
  · exact (prompt_format_spec.2.1 _ _ _).mpr ⟨by decide, by decide⟩
  · have h := prompt_format_spec.1 ⟨"t", "1.0.0", "", "Hello {name}!", ["name"]⟩ []
      (by decide)
    rw [h]
    decide
  · exact (prompt_format_spec.2.2.1 [("Hi ".data, "name")] "!".data _
      (by intro p hp; simp at hp; subst hp; exact ⟨by decide, by decide⟩)
      (by decide)).1
      (by intro p hp; simp at hp; subst hp; decide)
  · exact (prompt_format_spec.2.2.1 [("Hi ".data, "name")] "!".data _
      (by intro p hp; simp at hp; subst hp; exact ⟨by decide, by decide⟩)
      (by decide)).2
      ⟨("Hi ".data, "name"), by simp, by decide⟩
  · apply prompt_format_spec.2.2.2 ⟨"t2", "1.0.0", "", "Hello {name}!", ["name"]⟩
      [("name", "Bob")] "extra" "ignored" (by decide)
    intro ts hts
    have hscan : scanFormat "Hello {name}!".data =
        ScanOut.toks [FTok.lit "H", FTok.lit "e", FTok.lit "l", FTok.lit "l", FTok.lit "o",
          FTok.lit " ", FTok.field "name", FTok.lit "!"] := by decide
    rw [hscan] at hts
    cases hts
    decide

/-- Counterexample for the original C1: for the template `"\x7bx\x7d"` with no
declared variables and no bindings, the declared-minus-bound set is empty,
yet `format` raises (`str.format` KeyError on the undeclared placeholder)
instead of returning the substituted body. -/
theorem prompt_format_counterexample :
    missingVars ⟨"t", "1.0.0", "", "{x}", []⟩ [] = ∅ ∧
      PromptTemplate.format ⟨"t", "1.0.0", "", "{x}", []⟩ []
        = FormatResult.formatFailure := by
  decide

end LG
